import Mathlib

/-!
Shallow embedding of the rust-battery-management core in Lean 4.

Numeric model: Rust `f64` values are modelled as exact rationals (`ℚ`);
timestamps (`DateTime<Utc>`) are modelled as integers counting minutes, so
`Duration::minutes(m)` is addition of `m`.  Rust's `Result<T, anyhow::Error>`
is modelled as `Except String T`; a `&mut self` method returning `Result<f64>`
becomes a function `Battery → … → Except String ℚ × Battery` whose second
component is the post-call battery state (unchanged on error, as in the
source, where the early `return Err(..)` happens before any mutation).
-/

namespace BatteryPlanning

/-- `Battery` struct from `battery.rs`: capacity (MWh), current charge (MWh),
max charge/discharge rate (MW) and efficiency. -/
structure Battery where
  capacity : ℚ
  charge : ℚ
  max_rate : ℚ
  efficiency : ℚ
deriving DecidableEq

/-- `Battery::new` from `battery.rs`. -/
def Battery.new (capacity initial_charge max_rate efficiency : ℚ) : Battery :=
  { capacity := capacity, charge := initial_charge,
    max_rate := max_rate, efficiency := efficiency }

/-- `Battery::charge_battery` from `battery.rs`: reject negative power, cap the
power at `max_rate`, multiply by duration and efficiency, clip at the available
capacity, add to `charge` (with the defensive clamp at `capacity`), and return
the stored amount. -/
def charge_battery (b : Battery) (amount_mw duration_hours : ℚ) :
    Except String ℚ × Battery :=
  if amount_mw < 0 then
    (Except.error "Attempted to charge with a negative power", b)
  else
    let effective_mw := min amount_mw b.max_rate
    let energy_to_battery := effective_mw * duration_hours
    let actual_energy := energy_to_battery * b.efficiency
    let available_capacity := b.capacity - b.charge
    let energy_stored := min actual_energy available_capacity
    let new_charge := b.charge + energy_stored
    let clamped_charge := if new_charge > b.capacity then b.capacity else new_charge
    (Except.ok energy_stored, { b with charge := clamped_charge })

/-- `Battery::discharge_battery` from `battery.rs`: reject negative power, cap
the power at `max_rate`, multiply by duration, divide by efficiency; if the
stored charge is smaller than the needed amount, drain to `0` and return the
pre-drain charge, otherwise subtract the needed amount and return it. -/
def discharge_battery (b : Battery) (amount_mw duration_hours : ℚ) :
    Except String ℚ × Battery :=
  if amount_mw < 0 then
    (Except.error "Attempted to discharge with a negative power", b)
  else
    let effective_mw := min amount_mw b.max_rate
    let energy_needed := effective_mw * duration_hours
    let actual_energy_needed := energy_needed / b.efficiency
    if b.charge < actual_energy_needed then
      (Except.ok b.charge, { b with charge := 0 })
    else
      (Except.ok actual_energy_needed, { b with charge := b.charge - actual_energy_needed })

/-- `Forecast` struct from `forecast.rs`. -/
structure Forecast where
  start : ℤ
  «end» : ℤ
  consumption_average_power_interval : ℚ
deriving DecidableEq

/-- `ElectricityPrice` struct from `prices.rs`. -/
structure ElectricityPrice where
  start : ℤ
  «end» : ℤ
  market_price_currency : String
  market_price_per_kwh : ℚ
deriving DecidableEq

/-- `Plan` struct from `planning.rs`. -/
structure Plan where
  start : ℤ
  «end» : ℤ
  energy_from_battery_wh : ℚ
  energy_to_battery_wh : ℚ
deriving DecidableEq

/-- The reporting conversion applied verbatim in both branches of
`plan_battery_usage`: `(x * 1_000_000.0).floor() / 10.0`. -/
def report (x : ℚ) : ℚ := (⌊x * 1000000⌋ : ℚ) / 10

/-- The loop body plus loop of `plan_battery_usage` from `planning.rs`,
processing the zipped forecast/price pairs while threading the battery:
discharge the excess when the forecast exceeds the grid limit, charge at the
fixed 1.5 MW when the price is at most the average, otherwise idle; any error
from a battery operation aborts the whole run. -/
def planGo (grid_limit average_price : ℚ) :
    List (Forecast × ElectricityPrice) → Battery → Except String (List Plan)
  | [], _ => Except.ok []
  | (forecast, price) :: rest, b =>
    let duration_hours : ℚ := 15 / 60
    if forecast.consumption_average_power_interval > grid_limit then
      let excess := forecast.consumption_average_power_interval - grid_limit
      match discharge_battery b excess duration_hours with
      | (Except.error e, _) => Except.error e
      | (Except.ok discharged_energy, b1) =>
        match planGo grid_limit average_price rest b1 with
        | Except.error e => Except.error e
        | Except.ok l =>
          Except.ok (⟨forecast.start, forecast.«end», report discharged_energy, 0⟩ :: l)
    else if price.market_price_per_kwh ≤ average_price then
      match charge_battery b (3 / 2) duration_hours with
      | (Except.error e, _) => Except.error e
      | (Except.ok charge_amount, b1) =>
        match planGo grid_limit average_price rest b1 with
        | Except.error e => Except.error e
        | Except.ok l =>
          Except.ok (⟨forecast.start, forecast.«end», 0, report charge_amount⟩ :: l)
    else
      match planGo grid_limit average_price rest b with
      | Except.error e => Except.error e
      | Except.ok l =>
        Except.ok (⟨forecast.start, forecast.«end», 0, 0⟩ :: l)

/-- `plan_battery_usage` from `planning.rs`: iterate over
`forecasts.iter().zip(prices.iter())` building the plan. -/
def plan_battery_usage (forecasts : List Forecast) (prices : List ElectricityPrice)
    (battery : Battery) (grid_limit average_price : ℚ) : Except String (List Plan) :=
  planGo grid_limit average_price (forecasts.zip prices) battery

/-- The expansion of one hourly price record into four 15-minute records
(inner loop of `convert_to_fifteen_minute_intervals` in `prices.rs`). -/
def expandHour (price : ElectricityPrice) : List ElectricityPrice :=
  (List.range 4).map (fun (i : ℕ) =>
    { start := price.start + (i : ℤ) * 15,
      «end» := price.start + (i : ℤ) * 15 + 15,
      market_price_currency := price.market_price_currency,
      market_price_per_kwh := price.market_price_per_kwh })

/-- `convert_to_fifteen_minute_intervals` from `prices.rs`. -/
def convert_to_fifteen_minute_intervals :
    List ElectricityPrice → List ElectricityPrice
  | [] => []
  | price :: rest => expandHour price ++ convert_to_fifteen_minute_intervals rest

/-- The average-price computation of `load_day_ahead_prices` in `prices.rs`
(applied after parsing and validation): sum of `market_price_per_kwh` over the
15-minute expansion divided by its length. -/
def average_price_calc (prices : List ElectricityPrice) : ℚ :=
  let fifteen_minute_prices := convert_to_fifteen_minute_intervals prices
  (fifteen_minute_prices.map (fun p => p.market_price_per_kwh)).sum /
    (fifteen_minute_prices.length : ℚ)

/-- The non-error branch of `charge_battery` as a total function (return value
and post-state); used to phrase the behaviour of `charge_battery` on
non-negative power. -/
def chargeResult (b : Battery) (amount_mw duration_hours : ℚ) : ℚ × Battery :=
  let effective_mw := min amount_mw b.max_rate
  let energy_to_battery := effective_mw * duration_hours
  let actual_energy := energy_to_battery * b.efficiency
  let available_capacity := b.capacity - b.charge
  let energy_stored := min actual_energy available_capacity
  let new_charge := b.charge + energy_stored
  (energy_stored,
   { b with charge := if new_charge > b.capacity then b.capacity else new_charge })

/-- The non-error branch of `discharge_battery` as a total function (return
value and post-state). -/
def dischargeResult (b : Battery) (amount_mw duration_hours : ℚ) : ℚ × Battery :=
  let actual_energy_needed := min amount_mw b.max_rate * duration_hours / b.efficiency
  if b.charge < actual_energy_needed then
    (b.charge, { b with charge := 0 })
  else
    (actual_energy_needed, { b with charge := b.charge - actual_energy_needed })

/-- The plan produced by `planGo` when no battery operation errors (which the
planner in fact guarantees): same branching as `planGo`, with the battery
operations replaced by their non-error result functions. -/
def totalPlan (grid_limit average_price : ℚ) :
    List (Forecast × ElectricityPrice) → Battery → List Plan
  | [], _ => []
  | (forecast, price) :: rest, b =>
    if forecast.consumption_average_power_interval > grid_limit then
      let r := dischargeResult b
        (forecast.consumption_average_power_interval - grid_limit) (15 / 60)
      ⟨forecast.start, forecast.«end», report r.1, 0⟩ ::
        totalPlan grid_limit average_price rest r.2
    else if price.market_price_per_kwh ≤ average_price then
      let r := chargeResult b (3 / 2) (15 / 60)
      ⟨forecast.start, forecast.«end», 0, report r.1⟩ ::
        totalPlan grid_limit average_price rest r.2
    else
      ⟨forecast.start, forecast.«end», 0, 0⟩ ::
        totalPlan grid_limit average_price rest b

/-- The battery-internal MWh amounts moved by the planner in each interval:
per interval, the pair (discharged storage amount, charged storage amount) as
returned by the raw battery operations, before the `report` conversion.  Same
branching and battery threading as the planner. -/
def internalAmounts (grid_limit average_price : ℚ) :
    List (Forecast × ElectricityPrice) → Battery → List (ℚ × ℚ)
  | [], _ => []
  | (forecast, price) :: rest, b =>
    if forecast.consumption_average_power_interval > grid_limit then
      let r := dischargeResult b
        (forecast.consumption_average_power_interval - grid_limit) (15 / 60)
      (r.1, 0) :: internalAmounts grid_limit average_price rest r.2
    else if price.market_price_per_kwh ≤ average_price then
      let r := chargeResult b (3 / 2) (15 / 60)
      (0, r.1) :: internalAmounts grid_limit average_price rest r.2
    else
      (0, 0) :: internalAmounts grid_limit average_price rest b

/-- Modelled from the spec: `reported = floor(internal_MWh * 1_000_000 / 10) * 10`,
the reporting formula as the spec words it (convert to the smaller unit, then
floor to one-decimal-of-smaller-unit precision).  Stated only to compare with
the `report` conversion the code actually performs. -/
def reportSpec (x : ℚ) : ℚ := (⌊x * 1000000 / 10⌋ : ℚ) * 10

/-- A single battery operation request: either a charge or a discharge with a
power and a duration argument, as in the public API of `battery.rs`. -/
inductive BatOp where
  | charge (power duration : ℚ)
  | discharge (power duration : ℚ)
deriving DecidableEq

/-- The duration argument of a battery operation request. -/
def BatOp.duration : BatOp → ℚ
  | .charge _ d => d
  | .discharge _ d => d

/-- The battery state after performing one operation request (the returned
energy amount, and a possible error, are discarded; on error the state is
unchanged, as in the source). -/
def applyOp (b : Battery) : BatOp → Battery
  | .charge p d => (charge_battery b p d).2
  | .discharge p d => (discharge_battery b p d).2

/-- Concrete battery used in counterexamples/witnesses: capacity 3 MWh,
charge 0 MWh, max rate 2 MW, efficiency 1. -/
def cbC : Battery := ⟨3, 0, 2, 1⟩

/-- Concrete forecast: interval `[0, 15)` minutes, average power 10 MW. -/
def fC : Forecast := ⟨0, 15, 10⟩

/-- Concrete price point: interval `[0, 15)` minutes, 0 EUR/kWh. -/
def pC : ElectricityPrice := ⟨0, 15, "EUR", 0⟩

/-- Concrete battery: capacity 3 MWh, charge 1.5 MWh, max rate 10 MW,
efficiency 1. -/
def bC : Battery := ⟨3, 3 / 2, 10, 1⟩

/-- Concrete battery: capacity 3 MWh, charge 2 MWh, max rate 2 MW,
efficiency 1. -/
def bW : Battery := ⟨3, 2, 2, 1⟩

/-- Concrete hourly price records used in witnesses. -/
def pW1 : ElectricityPrice := ⟨0, 60, "EUR", 2⟩

/-- Second concrete hourly price record used in witnesses. -/
def pW2 : ElectricityPrice := ⟨60, 120, "EUR", 4⟩

instance : Inhabited ElectricityPrice := ⟨⟨0, 0, "", 0⟩⟩

/-! ## Helper lemmas -/

/-- On non-negative power, `charge_battery` is the non-error result function. -/
lemma charge_battery_of_nonneg (b : Battery) (p d : ℚ) (h : 0 ≤ p) :
    charge_battery b p d = (Except.ok (chargeResult b p d).1, (chargeResult b p d).2) := by
  unfold charge_battery chargeResult
  rw [if_neg (not_lt.mpr h)]

/-- On non-negative power, `discharge_battery` is the non-error result
function. -/
lemma discharge_battery_of_nonneg (b : Battery) (p d : ℚ) (h : 0 ≤ p) :
    discharge_battery b p d =
      (Except.ok (dischargeResult b p d).1, (dischargeResult b p d).2) := by
  unfold discharge_battery dischargeResult
  rw [if_neg (not_lt.mpr h)]
  dsimp only
  split <;> rfl

/-- The planner loop never hits an error branch: it always produces
`totalPlan`. -/
lemma planGo_eq_total (g a : ℚ) (zs : List (Forecast × ElectricityPrice)) (b : Battery) :
    planGo g a zs b = Except.ok (totalPlan g a zs b) := by
  induction zs generalizing b with
  | nil => rfl
  | cons z rest ih =>
    obtain ⟨f, p⟩ := z
    by_cases hv : f.consumption_average_power_interval > g
    · have hx : (0:ℚ) ≤ f.consumption_average_power_interval - g := by linarith
      simp only [planGo, totalPlan, if_pos hv, discharge_battery_of_nonneg _ _ _ hx, ih]
    · by_cases hp : p.market_price_per_kwh ≤ a
      · simp only [planGo, totalPlan, if_neg hv, if_pos hp,
          charge_battery_of_nonneg _ (3/2) _ (by norm_num), ih]
      · simp only [planGo, totalPlan, if_neg hv, if_neg hp, ih]

lemma totalPlan_length (g a : ℚ) (zs : List (Forecast × ElectricityPrice)) (b : Battery) :
    (totalPlan g a zs b).length = zs.length := by
  induction zs generalizing b with
  | nil => rfl
  | cons z rest ih =>
    obtain ⟨f, p⟩ := z
    simp only [totalPlan]
    split
    · simp [ih]
    · split <;> simp [ih]

/-- Each plan entry carries the start/end timestamps of its forecast point, in
input order. -/
lemma totalPlan_map_startend (g a : ℚ) (zs : List (Forecast × ElectricityPrice)) (b : Battery) :
    (totalPlan g a zs b).map (fun e => (e.start, e.«end»)) =
      zs.map (fun z => (z.1.start, z.1.«end»)) := by
  induction zs generalizing b with
  | nil => rfl
  | cons z rest ih =>
    obtain ⟨f, p⟩ := z
    simp only [totalPlan]
    split
    · simp [ih]
    · split <;> simp [ih]

/-- The emitted energy fields are exactly the `report`-converted internal
amounts. -/
lemma totalPlan_map_amounts (g a : ℚ) (zs : List (Forecast × ElectricityPrice)) (b : Battery) :
    (totalPlan g a zs b).map (fun e => (e.energy_from_battery_wh, e.energy_to_battery_wh)) =
      (internalAmounts g a zs b).map (fun r => (report r.1, report r.2)) := by
  induction zs generalizing b with
  | nil => rfl
  | cons z rest ih =>
    obtain ⟨f, p⟩ := z
    simp only [totalPlan, internalAmounts]
    split
    · simp [ih, report]
    · split <;> simp [ih, report]

/-- Pointwise branch facts about the produced entries, paired with their
forecast/price input. -/
lemma totalPlan_forall₂ (g a : ℚ) (zs : List (Forecast × ElectricityPrice)) (b : Battery) :
    List.Forall₂ (fun (e : Plan) (z : Forecast × ElectricityPrice) =>
      (z.1.consumption_average_power_interval > g → e.energy_to_battery_wh = 0) ∧
      (¬ z.1.consumption_average_power_interval > g →
        z.2.market_price_per_kwh ≤ a → e.energy_from_battery_wh = 0) ∧
      (¬ z.1.consumption_average_power_interval > g →
        ¬ z.2.market_price_per_kwh ≤ a →
        e.energy_from_battery_wh = 0 ∧ e.energy_to_battery_wh = 0) ∧
      (e.energy_from_battery_wh = 0 ∨ e.energy_to_battery_wh = 0))
      (totalPlan g a zs b) zs := by
  induction zs generalizing b with
  | nil => exact List.Forall₂.nil
  | cons z rest ih =>
    obtain ⟨f, p⟩ := z
    simp only [totalPlan]
    by_cases hv : f.consumption_average_power_interval > g
    · rw [if_pos hv]
      exact List.Forall₂.cons
        ⟨fun _ => rfl, fun h => absurd hv h, fun h => absurd hv h, Or.inr rfl⟩ (ih _)
    · rw [if_neg hv]
      by_cases hp : p.market_price_per_kwh ≤ a
      · rw [if_pos hp]
        exact List.Forall₂.cons
          ⟨fun h => absurd h hv, fun _ _ => rfl, fun _ h => absurd hp h, Or.inl rfl⟩ (ih _)
      · rw [if_neg hp]
        exact List.Forall₂.cons
          ⟨fun h => absurd h hv, fun _ _ => rfl, fun _ _ => ⟨rfl, rfl⟩, Or.inl rfl⟩ (ih _)

/-- `charge_battery` only mutates the `charge` field. -/
lemma charge_battery_fields (b : Battery) (p d : ℚ) :
    ((charge_battery b p d).2).capacity = b.capacity ∧
    ((charge_battery b p d).2).max_rate = b.max_rate ∧
    ((charge_battery b p d).2).efficiency = b.efficiency := by
  unfold charge_battery
  split <;> exact ⟨rfl, rfl, rfl⟩

/-- `discharge_battery` only mutates the `charge` field. -/
lemma discharge_battery_fields (b : Battery) (p d : ℚ) :
    ((discharge_battery b p d).2).capacity = b.capacity ∧
    ((discharge_battery b p d).2).max_rate = b.max_rate ∧
    ((discharge_battery b p d).2).efficiency = b.efficiency := by
  unfold discharge_battery
  split
  · exact ⟨rfl, rfl, rfl⟩
  · dsimp only
    split <;> exact ⟨rfl, rfl, rfl⟩

/-- One `charge_battery` call preserves `0 ≤ charge ≤ capacity`, given a
non-negative rate, efficiency and duration. -/
lemma charge_battery_inv (b : Battery) (p d : ℚ)
    (hrate : 0 ≤ b.max_rate) (heff : 0 ≤ b.efficiency)
    (h0 : 0 ≤ b.charge) (h1 : b.charge ≤ b.capacity) (hd : 0 ≤ d) :
    0 ≤ ((charge_battery b p d).2).charge ∧ ((charge_battery b p d).2).charge ≤ b.capacity := by
  unfold charge_battery
  split
  · exact ⟨h0, h1⟩
  · rename_i hneg
    have hp : 0 ≤ p := not_lt.mp hneg
    dsimp only
    constructor
    · split
      · exact le_trans h0 h1
      · have hstored : 0 ≤ min (min p b.max_rate * d * b.efficiency) (b.capacity - b.charge) :=
          le_min (mul_nonneg (mul_nonneg (le_min hp hrate) hd) heff) (sub_nonneg.mpr h1)
        linarith
    · split
      · exact le_refl _
      · rename_i hcl
        exact le_of_not_lt (fun hlt => hcl hlt)

/-- One `discharge_battery` call preserves `0 ≤ charge ≤ capacity`, given a
non-negative rate, efficiency and duration. -/
lemma discharge_battery_inv (b : Battery) (p d : ℚ)
    (hrate : 0 ≤ b.max_rate) (heff : 0 ≤ b.efficiency)
    (h0 : 0 ≤ b.charge) (h1 : b.charge ≤ b.capacity) (hd : 0 ≤ d) :
    0 ≤ ((discharge_battery b p d).2).charge ∧
      ((discharge_battery b p d).2).charge ≤ b.capacity := by
  unfold discharge_battery
  split
  · exact ⟨h0, h1⟩
  · rename_i hneg
    have hp : 0 ≤ p := not_lt.mp hneg
    have hneed : 0 ≤ min p b.max_rate * d / b.efficiency :=
      div_nonneg (mul_nonneg (le_min hp hrate) hd) heff
    dsimp only
    split
    · exact ⟨le_refl _, le_trans h0 h1⟩
    · rename_i hge
      exact ⟨sub_nonneg.mpr (not_lt.mp hge), le_trans (sub_le_self _ hneed) h1⟩

/-- One operation request preserves the charge invariant and the configuration
fields. -/
lemma applyOp_inv (b : Battery) (op : BatOp)
    (hrate : 0 ≤ b.max_rate) (heff : 0 ≤ b.efficiency)
    (h0 : 0 ≤ b.charge) (h1 : b.charge ≤ b.capacity) (hd : 0 ≤ op.duration) :
    (0 ≤ (applyOp b op).charge ∧ (applyOp b op).charge ≤ (applyOp b op).capacity) ∧
    (applyOp b op).capacity = b.capacity ∧ (applyOp b op).max_rate = b.max_rate ∧
    (applyOp b op).efficiency = b.efficiency := by
  cases op with
  | charge p d =>
    have hf := charge_battery_fields b p d
    have hi := charge_battery_inv b p d hrate heff h0 h1 hd
    refine ⟨⟨hi.1, ?_⟩, hf⟩
    show ((charge_battery b p d).2).charge ≤ ((charge_battery b p d).2).capacity
    rw [hf.1]
    exact hi.2
  | discharge p d =>
    have hf := discharge_battery_fields b p d
    have hi := discharge_battery_inv b p d hrate heff h0 h1 hd
    refine ⟨⟨hi.1, ?_⟩, hf⟩
    show ((discharge_battery b p d).2).charge ≤ ((discharge_battery b p d).2).capacity
    rw [hf.1]
    exact hi.2

/-- Any sequence of operation requests with non-negative durations preserves
the charge invariant. -/
lemma foldl_applyOp_inv (ops : List BatOp) (b : Battery)
    (hrate : 0 ≤ b.max_rate) (heff : 0 ≤ b.efficiency)
    (h0 : 0 ≤ b.charge) (h1 : b.charge ≤ b.capacity)
    (hdur : ∀ op ∈ ops, 0 ≤ op.duration) :
    0 ≤ (ops.foldl applyOp b).charge ∧
      (ops.foldl applyOp b).charge ≤ (ops.foldl applyOp b).capacity := by
  induction ops generalizing b with
  | nil => exact ⟨h0, h1⟩
  | cons op rest ih =>
    have h := applyOp_inv b op hrate heff h0 h1 (hdur op (List.mem_cons_self op rest))
    simp only [List.foldl_cons]
    exact ih (applyOp b op) (h.2.2.1 ▸ hrate) (h.2.2.2 ▸ heff) h.1.1 (h.2.1 ▸ h.1.2)
      (fun o ho => hdur o (List.mem_cons_of_mem op ho))

lemma expandHour_length (p : ElectricityPrice) : (expandHour p).length = 4 := by
  rw [expandHour, List.length_map, List.length_range]

lemma convert_length (l : List ElectricityPrice) :
    (convert_to_fifteen_minute_intervals l).length = 4 * l.length := by
  induction l with
  | nil => rfl
  | cons p rest ih =>
    simp only [convert_to_fifteen_minute_intervals, List.length_append, expandHour_length, ih,
      List.length_cons]
    ring

lemma expandHour_getD (p : ElectricityPrice) (i : ℕ) (hi : i < 4) :
    (expandHour p).getD i default =
      ⟨p.start + (i : ℤ) * 15, p.start + (i : ℤ) * 15 + 15,
       p.market_price_currency, p.market_price_per_kwh⟩ := by
  interval_cases i <;> rfl

/-- Positional description of the 15-minute expansion: the `4*j + i`-th output
record comes from the `j`-th input record. -/
lemma convert_getD (l : List ElectricityPrice) (j i : ℕ) (hj : j < l.length) (hi : i < 4) :
    (convert_to_fifteen_minute_intervals l).getD (4 * j + i) default =
      ⟨(l.getD j default).start + (i : ℤ) * 15,
       (l.getD j default).start + (i : ℤ) * 15 + 15,
       (l.getD j default).market_price_currency,
       (l.getD j default).market_price_per_kwh⟩ := by
  induction l generalizing j with
  | nil => exact absurd hj (Nat.not_lt_zero j)
  | cons p rest ih =>
    cases j with
    | zero =>
      simp only [convert_to_fifteen_minute_intervals, Nat.mul_zero, Nat.zero_add]
      rw [List.getD_append _ _ _ _ (by rw [expandHour_length]; exact hi)]
      rw [expandHour_getD p i hi]
      rfl
    | succ j' =>
      have hlen : (expandHour p).length ≤ 4 * (j' + 1) + i := by
        rw [expandHour_length]; omega
      simp only [convert_to_fifteen_minute_intervals]
      rw [List.getD_append_right _ _ _ _ hlen]
      have harith : 4 * (j' + 1) + i - (expandHour p).length = 4 * j' + i := by
        rw [expandHour_length]; omega
      rw [harith]
      have hj' : j' < rest.length := by simpa using hj
      rw [ih j' hj']
      rfl

lemma expandHour_map_price (p : ElectricityPrice) :
    (expandHour p).map (fun q => q.market_price_per_kwh) =
      [p.market_price_per_kwh, p.market_price_per_kwh,
       p.market_price_per_kwh, p.market_price_per_kwh] := by
  rfl

/-- Replicating every price four times multiplies the sum by four. -/
lemma convert_sum (l : List ElectricityPrice) :
    ((convert_to_fifteen_minute_intervals l).map (fun p => p.market_price_per_kwh)).sum =
      4 * (l.map (fun p => p.market_price_per_kwh)).sum := by
  induction l with
  | nil => simp [convert_to_fifteen_minute_intervals]
  | cons p rest ih =>
    simp only [convert_to_fifteen_minute_intervals, List.map_append, List.sum_append,
      expandHour_map_price, ih, List.map_cons, List.sum_cons, List.sum_nil]
    ring

/-! ## Claim theorems -/

/-- C1 (amended): for every interval entry emitted by `plan_battery_usage`,
the reported energy amount (`energy_from_battery_wh` in the discharge branch,
`energy_to_battery_wh` in the charge branch) equals
`floor(internal_MWh * 1_000_000) / 10` where the internal amount is the raw
MWh value returned by the corresponding battery operation — not
`floor(internal_MWh * 1_000_000 / 10) * 10` as the spec words it. -/
theorem C1_reported_equals_floored_internal (forecasts : List Forecast)
    (prices : List ElectricityPrice) (battery : Battery) (grid_limit average_price : ℚ) :
    ∃ l, plan_battery_usage forecasts prices battery grid_limit average_price = Except.ok l ∧
      l.map (fun e => (e.energy_from_battery_wh, e.energy_to_battery_wh)) =
        (internalAmounts grid_limit average_price (forecasts.zip prices) battery).map
          (fun r => ((⌊r.1 * 1000000⌋ : ℚ) / 10, (⌊r.2 * 1000000⌋ : ℚ) / 10)) := by
  refine ⟨_, planGo_eq_total _ _ _ _, ?_⟩
  rw [totalPlan_map_amounts]
  simp only [report]

/-- C1 counterexample: with one grid-limit-violating interval the internal
discharge amount is exactly 1 MWh, the emitted `energy_from_battery_wh` is
100000, while the spec formula `floor(1 * 1_000_000 / 10) * 10` gives
1000000 ≠ 100000, so the claim as stated fails on this input. -/
theorem C1_spec_formula_counterexample :
    plan_battery_usage [fC] [pC] bC 6 0 = Except.ok [⟨0, 15, 100000, 0⟩] ∧
    (discharge_battery bC (10 - 6) (15 / 60)).1 = Except.ok 1 ∧
    reportSpec 1 = 1000000 ∧ ((100000 : ℚ) ≠ reportSpec 1) := by
  have h1 : plan_battery_usage [fC] [pC] bC 6 0 = Except.ok [⟨0, 15, 100000, 0⟩] := by
    rw [plan_battery_usage]
    rw [show ([fC].zip [pC]) = [(fC, pC)] from rfl]
    rw [planGo_eq_total]
    simp only [totalPlan, fC, pC, bC, dischargeResult, report]
    norm_num [min_def]
  have h2 : (discharge_battery bC (10 - 6) (15 / 60)).1 = Except.ok 1 := by
    rw [discharge_battery_of_nonneg _ _ _ (by norm_num)]
    simp only [dischargeResult, bC]
    norm_num [min_def]
  have h3 : reportSpec 1 = 1000000 := by
    rw [reportSpec]
    norm_num
  exact ⟨h1, h2, h3, by rw [h3]; norm_num⟩

/-- C2 counterexample: from a state satisfying `0 ≤ charge ≤ capacity` (and
all the spec's configuration bounds), a single `charge_battery` call with a
negative duration drives `charge` to `-1 < 0`, so the invariant does not hold
for arbitrary duration arguments as the claim states. -/
theorem C2_negative_duration_counterexample :
    (0 < cbC.capacity ∧ 0 < cbC.max_rate ∧ 0 < cbC.efficiency ∧ cbC.efficiency ≤ 1 ∧
      0 ≤ cbC.charge ∧ cbC.charge ≤ cbC.capacity) ∧
    ((charge_battery cbC 1 (-1)).2).charge = -1 ∧
    ¬ (0 ≤ ((charge_battery cbC 1 (-1)).2).charge) := by
  refine ⟨⟨by norm_num [cbC], by norm_num [cbC], by norm_num [cbC], by norm_num [cbC],
    by norm_num [cbC], by norm_num [cbC]⟩, ?_, ?_⟩
  · norm_num [charge_battery, cbC, min_def]
  · norm_num [charge_battery, cbC, min_def]

/-- C2 (amended): for every battery state with `0 ≤ charge ≤ capacity` and
non-negative `max_rate` and `efficiency`, any sequence of `charge_battery`
and `discharge_battery` calls with arbitrary power and **non-negative**
duration arguments keeps `0 ≤ charge ≤ capacity`. -/
theorem C2_charge_invariant (b : Battery) (ops : List BatOp)
    (hrate : 0 ≤ b.max_rate) (heff : 0 ≤ b.efficiency)
    (h0 : 0 ≤ b.charge) (h1 : b.charge ≤ b.capacity)
    (hdur : ∀ op ∈ ops, 0 ≤ op.duration) :
    0 ≤ (ops.foldl applyOp b).charge ∧
      (ops.foldl applyOp b).charge ≤ (ops.foldl applyOp b).capacity :=
  foldl_applyOp_inv ops b hrate heff h0 h1 hdur

/-- C2 witness: the invariant after a concrete sequence of a charge, an
over-large discharge and a rejected negative-power charge on a concrete valid
battery. -/
theorem C2_charge_invariant_witness :
    0 ≤ (([BatOp.charge 1 1, BatOp.discharge 5 1, BatOp.charge (-2) 1].foldl applyOp bW).charge) ∧
    (([BatOp.charge 1 1, BatOp.discharge 5 1, BatOp.charge (-2) 1].foldl applyOp bW).charge) ≤
      (([BatOp.charge 1 1, BatOp.discharge 5 1,
          BatOp.charge (-2) 1].foldl applyOp bW).capacity) := by
  refine C2_charge_invariant bW _ (by norm_num [bW]) (by norm_num [bW]) (by norm_num [bW])
    (by norm_num [bW]) ?_
  intro op hop
  fin_cases hop <;> norm_num [BatOp.duration]

/-- C3: for every battery state with `0 ≤ charge ≤ capacity`, power `≥ 0` and
duration `≥ 0`, `discharge_battery` computes
`needed = min(power, max_rate) * duration / efficiency`; if `charge < needed`
it zeroes the charge and returns the pre-drain charge, otherwise it decreases
the charge by `needed` and returns `needed`; in both cases the returned value
is the storage-level energy removed (pre-charge minus post-charge). -/
theorem C3_discharge_behaviour (b : Battery) (power duration : ℚ)
    (hinv : 0 ≤ b.charge ∧ b.charge ≤ b.capacity) (hp : 0 ≤ power) (hd : 0 ≤ duration) :
    (b.charge < min power b.max_rate * duration / b.efficiency →
      discharge_battery b power duration = (Except.ok b.charge, { b with charge := 0 })) ∧
    (¬ b.charge < min power b.max_rate * duration / b.efficiency →
      discharge_battery b power duration =
        (Except.ok (min power b.max_rate * duration / b.efficiency),
         { b with charge := b.charge - min power b.max_rate * duration / b.efficiency })) ∧
    (discharge_battery b power duration).1 =
      Except.ok (b.charge - ((discharge_battery b power duration).2).charge) := by
  rw [discharge_battery_of_nonneg _ _ _ hp]
  unfold dischargeResult
  by_cases hc : b.charge < min power b.max_rate * duration / b.efficiency
  · rw [if_pos hc]
    exact ⟨fun _ => rfl, fun h => absurd hc h, by norm_num⟩
  · rw [if_neg hc]
    refine ⟨fun h => absurd h hc, fun _ => rfl, ?_⟩
    show Except.ok _ = Except.ok (b.charge - (b.charge - _))
    norm_num

/-- C3 witness: discharging the concrete battery `⟨3, 2, 2, 1⟩` at 1 MW for
one hour removes exactly 1 MWh and leaves 1 MWh stored. -/
theorem C3_discharge_witness :
    discharge_battery bW 1 1 = (Except.ok 1, ⟨3, 1, 2, 1⟩) := by
  have h := (C3_discharge_behaviour bW 1 1 ⟨by norm_num [bW], by norm_num [bW]⟩
      (by norm_num) (by norm_num)).2.1 (by norm_num [bW, min_def])
  rw [h]
  norm_num [bW, min_def]

/-- C4: for every battery state with `0 ≤ charge ≤ capacity`, power `≥ 0` and
duration `≥ 0`, `charge_battery` returns
`stored = min(min(power, max_rate) * duration * efficiency, capacity - charge)`,
the post-state charge is the pre-state charge plus that returned amount, and it
never exceeds the capacity. -/
theorem C4_charge_behaviour (b : Battery) (power duration : ℚ)
    (hinv : 0 ≤ b.charge ∧ b.charge ≤ b.capacity) (hp : 0 ≤ power) (hd : 0 ≤ duration) :
    (charge_battery b power duration).1 =
      Except.ok (min (min power b.max_rate * duration * b.efficiency) (b.capacity - b.charge)) ∧
    ((charge_battery b power duration).2).charge =
      b.charge + min (min power b.max_rate * duration * b.efficiency) (b.capacity - b.charge) ∧
    ((charge_battery b power duration).2).charge ≤ b.capacity := by
  rw [charge_battery_of_nonneg _ _ _ hp]
  unfold chargeResult
  dsimp only
  have hle : b.charge + min (min power b.max_rate * duration * b.efficiency)
      (b.capacity - b.charge) ≤ b.capacity := by
    have := min_le_right (min power b.max_rate * duration * b.efficiency) (b.capacity - b.charge)
    linarith
  rw [if_neg (not_lt.mpr hle)]
  exact ⟨rfl, rfl, hle⟩

/-- C4 witness: charging the concrete battery `⟨3, 2, 2, 1⟩` at 1 MW for one
hour stores exactly 1 MWh and the post-state charge is the capacity 3. -/
theorem C4_charge_witness :
    (charge_battery bW 1 1).1 = Except.ok 1 ∧ ((charge_battery bW 1 1).2).charge = 3 ∧
      ((charge_battery bW 1 1).2).charge ≤ 3 := by
  have h := C4_charge_behaviour bW 1 1 ⟨by norm_num [bW], by norm_num [bW]⟩
      (by norm_num) (by norm_num)
  refine ⟨?_, ?_, ?_⟩
  · rw [h.1]; norm_num [bW, min_def]
  · rw [h.2.1]; norm_num [bW, min_def]
  · have := h.2.2; norm_num [bW] at this ⊢; exact this

/-- C5: for every battery state and duration, calling `charge_battery` or
`discharge_battery` with negative power returns an error and leaves the
battery state (all fields) exactly unchanged — the rejection happens before
any mutation. -/
theorem C5_negative_power_rejected (b : Battery) (power duration : ℚ) (h : power < 0) :
    charge_battery b power duration =
      (Except.error "Attempted to charge with a negative power", b) ∧
    discharge_battery b power duration =
      (Except.error "Attempted to discharge with a negative power", b) := by
  unfold charge_battery discharge_battery
  rw [if_pos h, if_pos h]
  exact ⟨rfl, rfl⟩

/-- C5 witness: power `-1` is rejected on the concrete battery `⟨3, 2, 2, 1⟩`
and the state is returned unchanged. -/
theorem C5_negative_power_witness :
    charge_battery bW (-1) 1 =
      (Except.error "Attempted to charge with a negative power", bW) ∧
    discharge_battery bW (-1) 1 =
      (Except.error "Attempted to discharge with a negative power", bW) :=
  C5_negative_power_rejected bW (-1) 1 (by norm_num)

/-- C6: every plan produced by `plan_battery_usage` pairs its entries
positionally with the processed forecast/price pairs such that: a grid-limit
violation entry has `energy_to_battery_wh = 0`; a non-violating entry with
price at most the average has `energy_from_battery_wh = 0`; every other entry
has both fields `0`; and in every entry at most one of the two fields is
non-zero. -/
theorem C6_entry_branch_invariants (forecasts : List Forecast) (prices : List ElectricityPrice)
    (battery : Battery) (grid_limit average_price : ℚ) :
    ∃ l, plan_battery_usage forecasts prices battery grid_limit average_price = Except.ok l ∧
      List.Forall₂ (fun (e : Plan) (z : Forecast × ElectricityPrice) =>
        (z.1.consumption_average_power_interval > grid_limit → e.energy_to_battery_wh = 0) ∧
        (¬ z.1.consumption_average_power_interval > grid_limit →
          z.2.market_price_per_kwh ≤ average_price → e.energy_from_battery_wh = 0) ∧
        (¬ z.1.consumption_average_power_interval > grid_limit →
          ¬ z.2.market_price_per_kwh ≤ average_price →
          e.energy_from_battery_wh = 0 ∧ e.energy_to_battery_wh = 0) ∧
        (e.energy_from_battery_wh = 0 ∨ e.energy_to_battery_wh = 0))
        l (forecasts.zip prices) :=
  ⟨_, planGo_eq_total _ _ _ _, totalPlan_forall₂ _ _ _ _⟩

/-- C6 witness: the branch facts instantiated on a concrete one-interval
grid-violation input. -/
theorem C6_entry_branch_witness :
    ∃ l, plan_battery_usage [fC] [pC] bC 6 0 = Except.ok l ∧
      List.Forall₂ (fun (e : Plan) (z : Forecast × ElectricityPrice) =>
        (z.1.consumption_average_power_interval > 6 → e.energy_to_battery_wh = 0) ∧
        (¬ z.1.consumption_average_power_interval > 6 →
          z.2.market_price_per_kwh ≤ 0 → e.energy_from_battery_wh = 0) ∧
        (¬ z.1.consumption_average_power_interval > 6 →
          ¬ z.2.market_price_per_kwh ≤ 0 →
          e.energy_from_battery_wh = 0 ∧ e.energy_to_battery_wh = 0) ∧
        (e.energy_from_battery_wh = 0 ∨ e.energy_to_battery_wh = 0))
        l ([fC].zip [pC]) :=
  C6_entry_branch_invariants [fC] [pC] bC 6 0

/-- C7: `plan_battery_usage` processes exactly
`min (forecasts.length) (prices.length)` positionally paired intervals and
returns a plan with exactly that count, whose entries carry the forecast
timestamps in input order (the tail of the longer sequence is dropped). -/
theorem C7_plan_length_and_order (forecasts : List Forecast) (prices : List ElectricityPrice)
    (battery : Battery) (grid_limit average_price : ℚ) :
    ∃ l, plan_battery_usage forecasts prices battery grid_limit average_price = Except.ok l ∧
      l.length = min forecasts.length prices.length ∧
      l.map (fun e => (e.start, e.«end»)) =
        (forecasts.zip prices).map (fun z => (z.1.start, z.1.«end»)) := by
  refine ⟨_, planGo_eq_total _ _ _ _, ?_, totalPlan_map_startend _ _ _ _⟩
  rw [totalPlan_length, List.length_zip]

/-- C8: `convert_to_fifteen_minute_intervals` produces exactly 4 records per
input record; the `i`-th (i < 4) record derived from the `j`-th input record
carries the identical price and currency, starts at the input start plus
`15 * i` minutes, and ends 15 minutes after its own start. -/
theorem C8_hourly_expansion (hourly : List ElectricityPrice) :
    (convert_to_fifteen_minute_intervals hourly).length = 4 * hourly.length ∧
    ∀ j, j < hourly.length → ∀ i, i < 4 →
      ((convert_to_fifteen_minute_intervals hourly).getD (4 * j + i) default).market_price_per_kwh
          = (hourly.getD j default).market_price_per_kwh ∧
      ((convert_to_fifteen_minute_intervals hourly).getD (4 * j + i) default).market_price_currency
          = (hourly.getD j default).market_price_currency ∧
      ((convert_to_fifteen_minute_intervals hourly).getD (4 * j + i) default).start
          = (hourly.getD j default).start + (i : ℤ) * 15 ∧
      ((convert_to_fifteen_minute_intervals hourly).getD (4 * j + i) default).«end»
          = ((convert_to_fifteen_minute_intervals hourly).getD (4 * j + i) default).start + 15 := by
  refine ⟨convert_length hourly, fun j hj i hi => ?_⟩
  rw [convert_getD hourly j i hj hi]
  exact ⟨rfl, rfl, rfl, rfl⟩

/-- C8 witness: expanding one concrete hourly record gives 4 records, and its
fourth record keeps the price 2 and starts 45 minutes after the hour start. -/
theorem C8_hourly_expansion_witness :
    (convert_to_fifteen_minute_intervals [pW1]).length = 4 ∧
    ((convert_to_fifteen_minute_intervals [pW1]).getD 3 default).market_price_per_kwh = 2 ∧
    ((convert_to_fifteen_minute_intervals [pW1]).getD 3 default).start = 45 := by
  have h := C8_hourly_expansion [pW1]
  have h2 := h.2 0 (by norm_num) 3 (by norm_num)
  refine ⟨by rw [h.1]; rfl, ?_, ?_⟩
  · rw [show (4 * 0 + 3 : ℕ) = 3 from rfl] at h2
    rw [h2.1]
    rfl
  · rw [show (4 * 0 + 3 : ℕ) = 3 from rfl] at h2
    rw [h2.2.2.1]
    norm_num [pW1]

/-- C9: `plan_battery_usage` always returns `Ok`: the discharge power in the
grid-violation branch is the strictly positive excess and the charge power is
the constant 1.5, so the negative-power error branches of the battery
operations are unreachable from the planner. -/
theorem C9_plan_battery_usage_never_errors (forecasts : List Forecast)
    (prices : List ElectricityPrice) (battery : Battery) (grid_limit average_price : ℚ) :
    ∃ l, plan_battery_usage forecasts prices battery grid_limit average_price = Except.ok l :=
  ⟨_, planGo_eq_total grid_limit average_price (forecasts.zip prices) battery⟩

/-- C10: for every non-empty price list, the average over the 15-minute
expansion equals the arithmetic mean of the input records' prices
(replicating each price four times leaves the mean unchanged). -/
theorem C10_average_price_of_expansion (prices : List ElectricityPrice) (h : prices ≠ []) :
    average_price_calc prices =
      (prices.map (fun p => p.market_price_per_kwh)).sum / (prices.length : ℚ) := by
  unfold average_price_calc
  dsimp only
  rw [convert_sum, convert_length]
  push_cast
  exact mul_div_mul_left _ _ (by norm_num)

/-- C10 witness: the average of the two concrete hourly prices 2 and 4 over
the expanded sequence is 3. -/
theorem C10_average_price_witness : average_price_calc [pW1, pW2] = 3 := by
  rw [C10_average_price_of_expansion [pW1, pW2] (by simp)]
  norm_num [pW1, pW2]

end BatteryPlanning
